import Mathlib

/- Shallow embedding of the wallet-ledger core of the crypto-tracker backend
   (src/models/User.ts, src/controllers/userController.ts,
   src/services/currencyService.ts, src/services/customAPI.ts).
   JavaScript numbers are modelled as rationals (with an explicit extension by
   the two infinities where the rate-resolver claims need it), Date values as
   natural-number timestamps, and the mongoose document mutations as pure
   state-passing functions. -/

/-- Currency codes supported by the multi-currency schema generation
(User.ts line 4). -/
inductive Currency where
  | TMN : Currency
  | USDT : Currency
deriving DecidableEq

/-- Transaction type enum (User.ts line 10). -/
inductive TxType where
  | buy : TxType
  | sell : TxType
deriving DecidableEq

/-- ITransaction (User.ts lines 6-13); date is a timestamp. -/
structure Transaction where
  coin : String
  amount : ℚ
  price : ℚ
  type : TxType
  currency : Currency
  date : ℕ
deriving DecidableEq

/-- IAsset (User.ts lines 15-18). -/
structure Asset where
  coin : String
  amount : ℚ
deriving DecidableEq

/-- The multi-currency balance object (User.ts lines 21-24). -/
structure Balance where
  tmn : ℚ
  usdt : ℚ
deriving DecidableEq

/-- IWallet (User.ts lines 20-26). -/
structure Wallet where
  balance : Balance
  assets : List Asset
deriving DecidableEq

/-- The slice of the user document that the ledger operations touch
(User.ts lines 34-50). -/
structure UserState where
  wallet : Wallet
  transactions : List Transaction
  likedCoins : List String
  bookmarkedCoins : List String
deriving DecidableEq

/-- Reading balance[tx.currency.toLowerCase()] (User.ts line 93 resolves the
currency to the field name). -/
def Balance.get (b : Balance) : Currency → ℚ
  | .TMN => b.tmn
  | .USDT => b.usdt

/-- Adding a (possibly negative) delta to one currency field of the balance
object, the other field untouched. -/
def Balance.addTo (b : Balance) : Currency → ℚ → Balance
  | .TMN, d => { b with tmn := b.tmn + d }
  | .USDT, d => { b with usdt := b.usdt + d }

/-- JavaScript String.prototype.toUpperCase restricted to the ASCII range, as
used on coin symbols throughout the controller. -/
def jsToUpperCase (s : String) : String :=
  ⟨s.data.map Char.toUpper⟩

/-- Buy branch of addTransaction on the assets array (User.ts lines 98-100):
the first entry whose coin equals the transaction coin gets its amount
increased; when none matches a fresh entry is pushed at the end. -/
def upsertAsset : List Asset → String → ℚ → List Asset
  | [], c, amt => [⟨c, amt⟩]
  | a :: rest, c, amt =>
      if a.coin = c then { a with amount := a.amount + amt } :: rest
      else a :: upsertAsset rest c amt

/-- Sell branch of addTransaction on the assets array (User.ts lines 105-106):
the first entry whose coin equals the transaction coin gets its amount
decreased; when none matches the array is left unchanged. No entry is ever
removed, not even when its amount reaches zero. -/
def decrementAsset : List Asset → String → ℚ → List Asset
  | [], _, _ => []
  | a :: rest, c, amt =>
      if a.coin = c then { a with amount := a.amount - amt } :: rest
      else a :: decrementAsset rest c amt

/-- userSchema.methods.addTransaction (User.ts lines 90-110): push the record
onto the transaction log, then debit or credit balance[currency] by
price * amount and adjust the asset lot according to the transaction type.
The method performs no validation of its own. -/
def addTransaction (u : UserState) (tx : Transaction) : UserState :=
  let txs := u.transactions ++ [tx]
  match tx.type with
  | .buy =>
      { u with
        transactions := txs
        wallet :=
          { balance := u.wallet.balance.addTo tx.currency (-(tx.price * tx.amount))
            assets := upsertAsset u.wallet.assets tx.coin tx.amount } }
  | .sell =>
      { u with
        transactions := txs
        wallet :=
          { balance := u.wallet.balance.addTo tx.currency (tx.price * tx.amount)
            assets := decrementAsset u.wallet.assets tx.coin tx.amount } }

/-- Outcome reported by the sell endpoint: success, or the 400 response the
controller sends when the holdings check fails. -/
inductive SellOutcome where
  | ok : SellOutcome
  | insufficientHoldings : SellOutcome
deriving DecidableEq

/-- A trade request after zod validation (userController.ts lines 34-39):
coin, positive amount, positive price, supported currency. -/
structure TradeReq where
  coin : String
  amount : ℚ
  price : ℚ
  currency : Currency
deriving DecidableEq

/-- sellCrypto (userController.ts lines 453-508) after the zod parse: uppercase
the coin, look up the first matching asset lot, reject with the
insufficient-holdings response when the lot is missing or smaller than the
requested amount (the early return precedes every mutating statement), and
otherwise apply addTransaction with the normalized coin and the given
creation time. -/
def sellCrypto (u : UserState) (r : TradeReq) (now : ℕ) : UserState × SellOutcome :=
  let normalizedCoin := jsToUpperCase r.coin
  match u.wallet.assets.find? (fun a => decide (a.coin = normalizedCoin)) with
  | none => (u, .insufficientHoldings)
  | some asset =>
      if asset.amount < r.amount then (u, .insufficientHoldings)
      else (addTransaction u ⟨normalizedCoin, r.amount, r.price, .sell, r.currency, now⟩, .ok)

/-- toggleLikeCoin (userController.ts lines 890-918) on the likedCoins array:
filter the coin out when present, push it at the end when absent. -/
def toggleLikeCoin (likedCoins : List String) (coin : String) : List String :=
  if coin ∈ likedCoins then likedCoins.filter (fun c => decide (c ≠ coin))
  else likedCoins ++ [coin]

/-- toggleBookmarkCoin (userController.ts lines 920-949) on the bookmarkedCoins
array: same shape as toggleLikeCoin. -/
def toggleBookmarkCoin (bookmarkedCoins : List String) (coin : String) : List String :=
  if coin ∈ bookmarkedCoins then bookmarkedCoins.filter (fun c => decide (c ≠ coin))
  else bookmarkedCoins ++ [coin]

/-- The list of buy transactions of the same coin strictly earlier than the
given sell (userController.ts lines 124-126). -/
def priorBuys (transactions : List Transaction) (t : Transaction) : List Transaction :=
  transactions.filter
    (fun b => decide (b.coin = t.coin) && decide (b.type = TxType.buy) && decide (b.date < t.date))

/-- Average of the prices of a list of transactions (userController.ts
lines 130-132); division by zero in the rationals yields zero. -/
def avgBuyPrice (bs : List Transaction) : ℚ :=
  ((bs.map Transaction.price).sum) / (bs.length : ℚ)

/-- The predicate of the profitable-trades filter (userController.ts
lines 121-134): a sell whose list of prior buys of the same coin is nonempty
and whose price exceeds their average price. -/
def isProfitable (transactions : List Transaction) (t : Transaction) : Bool :=
  decide (t.type = TxType.sell) &&
    (!(priorBuys transactions t).isEmpty &&
      decide (avgBuyPrice (priorBuys transactions t) < t.price))

/-- calculateSuccessRate (userController.ts lines 118-137) as the numeric rate
the TypeScript formats with toFixed(2): zero for an empty log, and otherwise
the number of profitable trades divided by the length of the WHOLE transaction
list, times 100. -/
def calculateSuccessRate (transactions : List Transaction) : ℚ :=
  if transactions.isEmpty then 0
  else ((transactions.filter (fun t => isProfitable transactions t)).length : ℚ)
      / (transactions.length : ℚ) * 100

/-- Success rate as claim C4 and spec section 4.4 word it: profitable sells
divided by the number of sell transactions, times 100. Written only to be
compared against calculateSuccessRate. -/
def claimSuccessRate (transactions : List Transaction) : ℚ :=
  ((transactions.filter (fun t => isProfitable transactions t)).length : ℚ)
      / ((transactions.filter (fun t => decide (t.type = TxType.sell))).length : ℚ) * 100

/-- The payload assembled by getTransactions (userController.ts
lines 652-672): the displayed page plus pagination and summary numbers. -/
structure TxPage where
  transactions : List Transaction
  totalPages : ℕ
  totalTransactions : ℕ
  hasNext : Bool
  hasPrev : Bool
  totalBuy : ℕ
  totalSell : ℕ
  totalVolume : ℚ
deriving DecidableEq

/-- getTransactions (userController.ts lines 621-680) after the zod parse of
page, limit and the optional type and coin filters: filter by type, then by
case-insensitive coin match, slice the CHRONOLOGICAL list from
(page-1)*limit, reverse that slice for display, and compute the summary over
the full filtered list. Math.ceil(n / limit) is (n + limit - 1) / limit for a
positive limit. -/
def getTransactions (userTransactions : List Transaction) (page limit : ℕ)
    (type? : Option TxType) (coin? : Option String) : TxPage :=
  let t1 : List Transaction := match type? with
    | some ty => userTransactions.filter (fun t => decide (t.type = ty))
    | none => userTransactions
  let transactions : List Transaction := match coin? with
    | some c => t1.filter (fun t => decide (jsToUpperCase t.coin = jsToUpperCase c))
    | none => t1
  let startIndex := (page - 1) * limit
  let paginated := (transactions.drop startIndex).take limit
  { transactions := paginated.reverse
    totalPages := (transactions.length + limit - 1) / limit
    totalTransactions := transactions.length
    hasNext := decide (startIndex + limit < transactions.length)
    hasPrev := decide (0 < startIndex)
    totalBuy := (transactions.filter (fun t => decide (t.type = TxType.buy))).length
    totalSell := (transactions.filter (fun t => decide (t.type = TxType.sell))).length
    totalVolume := transactions.foldl (fun total t => total + t.amount * t.price) 0 }

/-- Combined filter of spec section 4.5: by type and/or coin symbol
(case-insensitive exact match), in one pass over the chronological log. -/
def specFilter (type? : Option TxType) (coin? : Option String)
    (txs : List Transaction) : List Transaction :=
  txs.filter (fun t =>
    (match type? with | some ty => decide (t.type = ty) | none => true) &&
    (match coin? with | some c => decide (jsToUpperCase t.coin = jsToUpperCase c) | none => true))

/-- Pagination in reverse chronological order as claim C6 words it: the page
is cut from the REVERSED filtered list, so the most recent matching
transaction is first on page 1. Written only to be compared against
getTransactions. -/
def revChronPage (page limit : ℕ) (txs : List Transaction) : List Transaction :=
  ((txs.reverse.drop ((page - 1) * limit)).take limit)

/-- Sum of amount * price over a transaction list (the totalVolume summary). -/
def volumeSum : List Transaction → ℚ
  | [] => 0
  | t :: rest => t.amount * t.price + volumeSum rest

/-- A JavaScript number that is not NaN: a finite rational or one of the two
infinities. The rate-provider fetchers (currencyService.ts lines 7-30) map
NaN to null through their isNaN guards, so null-or-JsNum covers every value
they can hand to getUsdtRate. -/
inductive JsNum where
  | fin : ℚ → JsNum
  | posInf : JsNum
  | negInf : JsNum
deriving DecidableEq

/-- JavaScript truthiness of a non-NaN number: only zero is falsy. -/
def JsNum.truthy : JsNum → Bool
  | .fin q => decide (q ≠ 0)
  | .posInf => true
  | .negInf => true

/-- The JavaScript comparison rate > 0 for a non-NaN number: positive infinity
compares greater than zero. -/
def JsNum.gtZero : JsNum → Bool
  | .fin q => decide (0 < q)
  | .posInf => true
  | .negInf => false

/-- A non-NaN JavaScript number is finite when it is neither infinity. -/
def JsNum.finite : JsNum → Bool
  | .fin _ => true
  | .posInf => false
  | .negInf => false

/-- The hardcoded fallback rate (currencyService.ts line 46). -/
def FALLBACK_RATE : JsNum := .fin 100000

/-- getUsdtRate (currencyService.ts lines 32-49) on a cache miss, over the
ordered provider outcomes (fetchFromExir then fetchFromWallex, each returning
null or a non-NaN number): return and cache the first outcome r satisfying
the guard r && r > 0, and otherwise return and cache the fallback. The first
component is the returned rate, the second the value written to the cache;
the function cannot throw. -/
def getUsdtRate : List (Option JsNum) → JsNum × JsNum
  | [] => (FALLBACK_RATE, FALLBACK_RATE)
  | r :: rest =>
      match r with
      | some v => if v.truthy && v.gtZero then (v, v) else getUsdtRate rest
      | none => getUsdtRate rest

/-- The two fields of MarketPriceInfo (customAPI.ts lines 54-64) that
getPortfolio reads. -/
structure MarketPriceInfo where
  lastPrice : ℚ
  change24h : ℚ
deriving DecidableEq

/-- UserAssetWithPrice (userController.ts lines 87-93). -/
structure AssetWithPrice where
  coin : String
  amount : ℚ
  marketInfo : Option MarketPriceInfo
  valueInToman : ℚ
  valueInDollar : ℚ
  change24h : ℚ
  totalChange : ℚ
deriving DecidableEq

/-- formatCurrency (userController.ts line 96): Math.round(value * 100) / 100;
the rational round function rounds halves up exactly as Math.round does. -/
def formatCurrency (value : ℚ) : ℚ := (round (value * 100) : ℤ) / 100

/-- The PortfolioData fields (userController.ts lines 70-85) that the ledger
claims are about; the exchange-rate timestamp string is omitted. -/
structure PortfolioData where
  totalValue : ℚ
  cashBalance : ℚ
  assetsValue : ℚ
  assets : List AssetWithPrice
  profitLoss : ℚ
  profitLossPercentage : ℚ
  totalTransactions : ℕ
  successRate : ℚ
  usdtToToman : ℚ
deriving DecidableEq

/-- getPortfolio (userController.ts lines 510-619) on a cache miss, with the
resolved usdt rate passed in and the Market Price Gateway outcome made
explicit: getMultiplePrices (customAPI.ts lines 114-132) either throws - it
rethrows any getAllMarkets failure - or produces a per-symbol lookup that is
null for unknown symbols. When the wallet holds no assets the gateway is
never called; otherwise a thrown gateway error escapes to the catch-all,
which answers with a 500 error response. A null per-asset price contributes
the price 0 through the expression marketInfo?.lastPrice || 0. -/
def getPortfolio (u : UserState) (usdtRate : ℚ)
    (gateway : Except Unit (String → Option MarketPriceInfo)) :
    Except Unit PortfolioData :=
  let usdtInToman := u.wallet.balance.usdt * usdtRate
  let totalCashInToman := u.wallet.balance.tmn + usdtInToman
  if u.wallet.assets.isEmpty then
    Except.ok
      { totalValue := totalCashInToman
        cashBalance := totalCashInToman
        assetsValue := 0
        assets := []
        profitLoss := totalCashInToman - 10000
        profitLossPercentage := (totalCashInToman - 10000) / 10000 * 100
        totalTransactions := u.transactions.length
        successRate := calculateSuccessRate u.transactions
        usdtToToman := usdtRate }
  else
    match gateway with
    | .error e => .error e
    | .ok marketPrices =>
        let assetsWithValue : List AssetWithPrice := u.wallet.assets.map (fun asset =>
          let marketInfo := marketPrices asset.coin
          let currentPrice : ℚ := match marketInfo with
            | some mi => mi.lastPrice
            | none => 0
          let valueInToman := asset.amount * currentPrice
          { coin := asset.coin
            amount := asset.amount
            marketInfo := marketInfo
            valueInToman := ((round valueInToman : ℤ) : ℚ)
            valueInDollar := valueInToman / usdtRate
            change24h := match marketInfo with
              | some mi => mi.change24h
              | none => 0
            totalChange := match marketInfo with
              | some mi => mi.change24h * asset.amount
              | none => 0 })
        let totalAssetsValueTMN : ℚ :=
          (u.wallet.assets.map (fun asset =>
            asset.amount * (match marketPrices asset.coin with
              | some mi => mi.lastPrice
              | none => 0))).sum
        let totalValueTMN := totalCashInToman + totalAssetsValueTMN
        let profitLoss := totalValueTMN - 10000
        Except.ok
          { totalValue := formatCurrency totalValueTMN
            cashBalance := formatCurrency totalCashInToman
            assetsValue := formatCurrency totalAssetsValueTMN
            assets := assetsWithValue
            profitLoss := formatCurrency profitLoss
            profitLossPercentage := formatCurrency (profitLoss / 10000 * 100)
            totalTransactions := u.transactions.length
            successRate := calculateSuccessRate u.transactions
            usdtToToman := usdtRate }

/-- Progress of one in-flight sell request. A request starts before its
holdings check; once the check passes it holds the user document it fetched
(the auth middleware loads the document before the controller body runs, and
addTransaction mutates and saves that same document); afterwards it is done
with its reported outcome. -/
inductive SellPhase where
  | start : SellPhase
  | validated : UserState → SellPhase
  | done : SellOutcome → SellPhase
deriving DecidableEq

/-- Interleaved execution state for two sell requests of the same user:
the persisted document plus each request's progress. -/
structure RaceState where
  shared : UserState
  p1 : SellPhase
  p2 : SellPhase
deriving DecidableEq

/-- One scheduler step of a single sell request (userController.ts
lines 453-508). From start it fetches the current persisted document and runs
the holdings check of sellCrypto on it; no later step re-checks. From
validated it runs addTransaction on its fetched document and saves the
result back, overwriting the persisted document, and reports success. -/
def sellStep (shared : UserState) (r : TradeReq) (now : ℕ) : SellPhase → UserState × SellPhase
  | .start =>
      match shared.wallet.assets.find? (fun a => decide (a.coin = jsToUpperCase r.coin)) with
      | none => (shared, .done .insufficientHoldings)
      | some asset =>
          if asset.amount < r.amount then (shared, .done .insufficientHoldings)
          else (shared, .validated shared)
  | .validated snap =>
      (addTransaction snap ⟨jsToUpperCase r.coin, r.amount, r.price, .sell, r.currency, now⟩,
        .done .ok)
  | .done o => (shared, .done o)

/-- Run a schedule over the two requests: true advances the first request by
one step, false the second. -/
def runSchedule (r1 r2 : TradeReq) (now : ℕ) : List Bool → RaceState → RaceState
  | [], s => s
  | b :: rest, s =>
      if b then
        let step := sellStep s.shared r1 now s.p1
        runSchedule r1 r2 now rest { shared := step.1, p1 := step.2, p2 := s.p2 }
      else
        let step := sellStep s.shared r2 now s.p2
        runSchedule r1 r2 now rest { shared := step.1, p1 := s.p1, p2 := step.2 }

/-- Sum of costs amount * price of the buy transactions in the given currency
(spec section 8, balance invariant). -/
def buyCostSum (c : Currency) : List Transaction → ℚ
  | [] => 0
  | t :: rest =>
      (if t.type = TxType.buy ∧ t.currency = c then t.price * t.amount else 0) + buyCostSum c rest

/-- Sum of proceeds amount * price of the sell transactions in the given
currency (spec section 8, balance invariant). -/
def sellProceedsSum (c : Currency) : List Transaction → ℚ
  | [] => 0
  | t :: rest =>
      (if t.type = TxType.sell ∧ t.currency = c then t.price * t.amount else 0) + sellProceedsSum c rest

/-- Sum of the amounts of the buy transactions of the given coin (spec
section 8, holdings invariant). -/
def buyAmountSum (coin : String) : List Transaction → ℚ
  | [] => 0
  | t :: rest =>
      (if t.type = TxType.buy ∧ t.coin = coin then t.amount else 0) + buyAmountSum coin rest

/-- Sum of the amounts of the sell transactions of the given coin (spec
section 8, holdings invariant). -/
def sellAmountSum (coin : String) : List Transaction → ℚ
  | [] => 0
  | t :: rest =>
      (if t.type = TxType.sell ∧ t.coin = coin then t.amount else 0) + sellAmountSum coin rest

/-- Total amount of the given coin held across the assets array. -/
def heldSum (coin : String) (assets : List Asset) : ℚ :=
  ((assets.filter (fun a => decide (a.coin = coin))).map Asset.amount).sum

/-- The controller-side validation of one transaction against the current
state: buyCrypto (userController.ts line 410) rejects when the currency
balance is below amount * price, and sellCrypto (line 471) rejects when the
first lot of the coin is missing or below the requested amount. -/
def txValid (u : UserState) (tx : Transaction) : Bool :=
  match tx.type with
  | .buy => decide (tx.price * tx.amount ≤ u.wallet.balance.get tx.currency)
  | .sell =>
      match u.wallet.assets.find? (fun a => decide (a.coin = tx.coin)) with
      | some a => decide (tx.amount ≤ a.amount)
      | none => false

/-- A transaction sequence is validated when each transaction passes the
controller check against the state reached by applying its predecessors. -/
def validSeq (u : UserState) : List Transaction → Bool
  | [] => true
  | tx :: rest => txValid u tx && validSeq (addTransaction u tx) rest

/-- Applying a whole transaction sequence through addTransaction. -/
def applyAll (u : UserState) (txs : List Transaction) : UserState :=
  txs.foldl addTransaction u
theorem Balance.get_addTo (b : Balance) (c q : Currency) (d : ℚ) :
    (b.addTo c d).get q = b.get q + (if q = c then d else 0) := by
  cases c <;> cases q <;> simp [Balance.addTo, Balance.get]

theorem decrementAsset_of_not_mem (c : String) (amt : ℚ) :
    ∀ l : List Asset, (∀ a ∈ l, a.coin ≠ c) → decrementAsset l c amt = l := by
  intro l
  induction l with
  | nil => intro _; rfl
  | cons a rest ih =>
      intro h
      have hc : a.coin ≠ c := h a (by simp)
      simp [decrementAsset, hc, ih (fun x hx => h x (by simp [hx]))]

theorem decrementAsset_of_find?_none (c : String) (amt : ℚ)
    (l : List Asset) (h : l.find? (fun a => decide (a.coin = c)) = none) :
    decrementAsset l c amt = l :=
  decrementAsset_of_not_mem c amt l (by simpa using List.find?_eq_none.mp h)

/-- C10: the model method addTransaction performs no precondition checking:
for a sell transaction whose coin has no asset lot it still credits
balance[currency] by price * amount, leaves the other currency balance and
the assets array unchanged, and appends the record to the log, raising no
error (the InsufficientHoldings validation lives only in the controller). -/
theorem C10_addTransaction_unchecked_sell (u : UserState) (tx : Transaction)
    (hty : tx.type = TxType.sell)
    (hnone : u.wallet.assets.find? (fun a => decide (a.coin = tx.coin)) = none) :
    (addTransaction u tx).wallet.balance.get tx.currency
        = u.wallet.balance.get tx.currency + tx.price * tx.amount ∧
    (∀ c, c ≠ tx.currency → (addTransaction u tx).wallet.balance.get c
        = u.wallet.balance.get c) ∧
    (addTransaction u tx).wallet.assets = u.wallet.assets ∧
    (addTransaction u tx).transactions = u.transactions ++ [tx] := by
  have hassets := decrementAsset_of_find?_none tx.coin tx.amount u.wallet.assets hnone
  refine ⟨?_, ?_, ?_, ?_⟩
  · simp [addTransaction, hty, Balance.get_addTo]
  · intro c hcne
    simp [addTransaction, hty, Balance.get_addTo, hcne]
  · simp [addTransaction, hty, hassets]
  · simp [addTransaction, hty]

def c10_user : UserState :=
  { wallet := { balance := { tmn := 50, usdt := 7 }, assets := [⟨"ETH", 2⟩] }
    transactions := []
    likedCoins := []
    bookmarkedCoins := [] }

def c10_tx : Transaction :=
  { coin := "BTC", amount := 3, price := 5, type := TxType.sell
    currency := Currency.TMN, date := 42 }

theorem C10_witness :
    (c10_tx.type = TxType.sell ∧
      c10_user.wallet.assets.find? (fun a => decide (a.coin = c10_tx.coin)) = none) ∧
    ((addTransaction c10_user c10_tx).wallet.balance.get c10_tx.currency
        = c10_user.wallet.balance.get c10_tx.currency + c10_tx.price * c10_tx.amount ∧
      (∀ c, c ≠ c10_tx.currency → (addTransaction c10_user c10_tx).wallet.balance.get c
          = c10_user.wallet.balance.get c) ∧
      (addTransaction c10_user c10_tx).wallet.assets = c10_user.wallet.assets ∧
      (addTransaction c10_user c10_tx).transactions = c10_user.transactions ++ [c10_tx]) :=
  ⟨⟨rfl, by decide⟩, C10_addTransaction_unchecked_sell c10_user c10_tx rfl (by decide)⟩
/-- C2: the sell fails with InsufficientHoldings exactly when no asset lot
exists for the uppercased coin or the first matching lot's amount is below
the requested amount, and on that failure path the whole user state - wallet
balance, assets and transaction log - is returned unchanged. -/
theorem C2_sell_reject_iff (u : UserState) (r : TradeReq) (now : ℕ) :
    ((sellCrypto u r now).2 = SellOutcome.insufficientHoldings ↔
      ((∀ a ∈ u.wallet.assets, a.coin ≠ jsToUpperCase r.coin) ∨
        (∃ a, u.wallet.assets.find? (fun x => decide (x.coin = jsToUpperCase r.coin)) = some a
          ∧ a.amount < r.amount))) ∧
    ((sellCrypto u r now).2 = SellOutcome.insufficientHoldings →
      (sellCrypto u r now).1 = u) := by
  rcases hfind : u.wallet.assets.find? (fun a => decide (a.coin = jsToUpperCase r.coin))
    with _ | a
  · have h1 : (sellCrypto u r now).2 = SellOutcome.insufficientHoldings := by
      simp [sellCrypto, hfind]
    have h2 : (sellCrypto u r now).1 = u := by
      simp [sellCrypto, hfind]
    refine ⟨⟨fun _ => Or.inl ?_, fun _ => h1⟩, fun _ => h2⟩
    intro a ha
    have := List.find?_eq_none.mp hfind a ha
    simpa using this
  · by_cases hlt : a.amount < r.amount
    · have h1 : (sellCrypto u r now).2 = SellOutcome.insufficientHoldings := by
        simp [sellCrypto, hfind, hlt]
      have h2 : (sellCrypto u r now).1 = u := by
        simp [sellCrypto, hfind, hlt]
      exact ⟨⟨fun _ => Or.inr ⟨a, hfind, hlt⟩, fun _ => h1⟩, fun _ => h2⟩
    · have h1 : (sellCrypto u r now).2 = SellOutcome.ok := by
        simp [sellCrypto, hfind, hlt]
      refine ⟨⟨fun h => ?_, fun hbad => ?_⟩, fun h => ?_⟩
      · rw [h1] at h
        exact SellOutcome.noConfusion h
      · exfalso
        cases hbad with
        | inl hno =>
            have hmem := List.mem_of_find?_eq_some hfind
            have hcoin : a.coin = jsToUpperCase r.coin := by
              simpa using List.find?_some hfind
            exact absurd hcoin (hno a hmem)
        | inr hex =>
            obtain ⟨b, hb, hblt⟩ := hex
            rw [hfind] at hb
            cases hb
            exact absurd hblt hlt
      · rw [h1] at h
        exact SellOutcome.noConfusion h

def c2_user : UserState :=
  { wallet := { balance := { tmn := 30, usdt := 0 }, assets := [⟨"BTC", 2⟩] }
    transactions := []
    likedCoins := []
    bookmarkedCoins := [] }

def c2_req : TradeReq := { coin := "btc", amount := 5, price := 4, currency := Currency.TMN }

theorem C2_witness :
    ((sellCrypto c2_user c2_req 9).2 = SellOutcome.insufficientHoldings ↔
      ((∀ a ∈ c2_user.wallet.assets, a.coin ≠ jsToUpperCase c2_req.coin) ∨
        (∃ a, c2_user.wallet.assets.find?
            (fun x => decide (x.coin = jsToUpperCase c2_req.coin)) = some a
          ∧ a.amount < c2_req.amount))) ∧
    ((sellCrypto c2_user c2_req 9).2 = SellOutcome.insufficientHoldings →
      (sellCrypto c2_user c2_req 9).1 = c2_user) :=
  C2_sell_reject_iff c2_user c2_req 9
def c1_user : UserState :=
  { wallet := { balance := { tmn := 1000, usdt := 0 }, assets := [⟨"BTC", 1⟩] }
    transactions := []
    likedCoins := []
    bookmarkedCoins := [] }

def c1_req : TradeReq := { coin := "BTC", amount := 1, price := 100, currency := Currency.TMN }

/-- C1: the claim is false on the code: a validated sell of the whole lot
succeeds, yet the zero-amount lot is NOT removed from wallet.assets - the
post-state still contains an entry whose amount is less than or equal to
zero, because neither addTransaction nor sellCrypto has any removal step. -/
theorem C1_counterexample :
    (sellCrypto c1_user c1_req 5).2 = SellOutcome.ok ∧
    ∃ a ∈ (sellCrypto c1_user c1_req 5).1.wallet.assets, a.amount ≤ 0 := by
  refine ⟨rfl, ?_⟩
  have hassets : (sellCrypto c1_user c1_req 5).1.wallet.assets
      = [⟨"BTC", (1 : ℚ) - 1⟩] := rfl
  rw [hassets]
  exact ⟨⟨"BTC", (1 : ℚ) - 1⟩, by simp, by norm_num⟩

theorem decrementAsset_map_coin (c : String) (amt : ℚ) :
    ∀ l : List Asset, (decrementAsset l c amt).map Asset.coin = l.map Asset.coin := by
  intro l
  induction l with
  | nil => rfl
  | cons x rest ih =>
      by_cases hc : x.coin = c
      · simp [decrementAsset, hc]
      · simp [decrementAsset, hc, ih]

theorem decrementAsset_nonneg (c : String) (amt : ℚ) (a0 : Asset) :
    ∀ l : List Asset, (∀ a ∈ l, 0 ≤ a.amount) →
      l.find? (fun a => decide (a.coin = c)) = some a0 → amt ≤ a0.amount →
      ∀ a ∈ decrementAsset l c amt, 0 ≤ a.amount := by
  intro l
  induction l with
  | nil => intro _ hf; simp at hf
  | cons x rest ih =>
      intro hpos hf hle a ha
      by_cases hc : x.coin = c
      · simp [List.find?_cons, hc] at hf
        have hxa0 : x = a0 := hf
        simp only [decrementAsset, if_pos hc] at ha
        rcases List.mem_cons.mp ha with h | h
        · subst h
          have : amt ≤ x.amount := hxa0 ▸ hle
          simpa using sub_nonneg.mpr this
        · exact hpos a (List.mem_cons_of_mem x h)
      · simp [List.find?_cons, hc] at hf
        simp only [decrementAsset, if_neg hc] at ha
        rcases List.mem_cons.mp ha with h | h
        · subst h; exact hpos a (List.mem_cons_self a rest)
        · exact ih (fun b hb => hpos b (List.mem_cons_of_mem x hb)) hf hle a h

/-- C1 amended: the decremented lot is never removed: a successful sellCrypto
leaves the list of lot coins unchanged (in particular a lot whose amount
reaches exactly zero stays in wallet.assets), and when every pre-state lot
amount is nonnegative, every post-state lot amount is still nonnegative - so
the post-state can contain a lot with amount equal to zero but never one with
negative amount. -/
theorem C1_no_negative_lots (u : UserState) (r : TradeReq) (now : ℕ)
    (hpre : ∀ a ∈ u.wallet.assets, 0 ≤ a.amount)
    (hok : (sellCrypto u r now).2 = SellOutcome.ok) :
    ((sellCrypto u r now).1.wallet.assets.map Asset.coin
        = u.wallet.assets.map Asset.coin) ∧
    (∀ a ∈ (sellCrypto u r now).1.wallet.assets, 0 ≤ a.amount) := by
  rcases hfind : u.wallet.assets.find? (fun a => decide (a.coin = jsToUpperCase r.coin))
    with _ | a0
  · have hout : (sellCrypto u r now).2 = SellOutcome.insufficientHoldings := by
      simp [sellCrypto, hfind]
    rw [hout] at hok
    exact SellOutcome.noConfusion hok
  · by_cases hlt : a0.amount < r.amount
    · have hout : (sellCrypto u r now).2 = SellOutcome.insufficientHoldings := by
        simp [sellCrypto, hfind, hlt]
      rw [hout] at hok
      exact SellOutcome.noConfusion hok
    · have hassets : (sellCrypto u r now).1.wallet.assets
          = decrementAsset u.wallet.assets (jsToUpperCase r.coin) r.amount := by
        simp [sellCrypto, hfind, hlt, addTransaction]
      constructor
      · rw [hassets]
        exact decrementAsset_map_coin _ _ _
      · rw [hassets]
        exact decrementAsset_nonneg _ _ a0 _ hpre hfind (le_of_not_lt hlt)

theorem C1_witness :
    ((∀ a ∈ c1_user.wallet.assets, 0 ≤ a.amount) ∧
      (sellCrypto c1_user c1_req 5).2 = SellOutcome.ok) ∧
    (((sellCrypto c1_user c1_req 5).1.wallet.assets.map Asset.coin
        = c1_user.wallet.assets.map Asset.coin) ∧
      (∀ a ∈ (sellCrypto c1_user c1_req 5).1.wallet.assets, 0 ≤ a.amount)) :=
  ⟨⟨by decide, rfl⟩, C1_no_negative_lots c1_user c1_req 5 (by decide) rfl⟩
/-- C9: the double-toggle claim is false for exact sequence contents: removing
a coin that is not the last element and toggling it back appends it at the
end, so the resulting sequence differs from the original even though its
membership and multiset of elements are restored. -/
theorem C9_counterexample :
    toggleLikeCoin (toggleLikeCoin ["BTC", "ETH"] "BTC") "BTC" = ["ETH", "BTC"] ∧
    toggleLikeCoin (toggleLikeCoin ["BTC", "ETH"] "BTC") "BTC" ≠ ["BTC", "ETH"] := by
  exact ⟨by decide, by decide⟩

theorem filterNe_of_not_mem (coin : String) :
    ∀ l : List String, coin ∉ l → l.filter (fun c => !decide (c = coin)) = l := by
  intro l
  induction l with
  | nil => intro _; rfl
  | cons x rest ih =>
      intro h
      have hx : ¬ x = coin := fun hxc => h (by simp [hxc])
      have hrest : coin ∉ rest := fun hr => h (by simp [hr])
      simp only [List.filter_cons, hx, decide_False, Bool.not_false, if_true, ih hrest]

theorem filterNe_append_perm (coin : String) :
    ∀ l : List String, l.Nodup → coin ∈ l →
      List.Perm ((l.filter (fun c => !decide (c = coin))) ++ [coin]) l := by
  intro l
  induction l with
  | nil => intro _ h; simp at h
  | cons x rest ih =>
      intro hnd hmem
      by_cases hx : x = coin
      · subst hx
        have hnotin : x ∉ rest := (List.nodup_cons.mp hnd).1
        have hfr := filterNe_of_not_mem x rest hnotin
        simp only [List.filter_cons, decide_True, Bool.not_true, if_false, hfr]
        exact List.perm_append_singleton x rest
      · have hmem2 : coin ∈ rest := by
          rcases List.mem_cons.mp hmem with h | h
          · exact absurd h.symm hx
          · exact h
        have hnd2 := (List.nodup_cons.mp hnd).2
        simp only [List.filter_cons, hx, decide_False, Bool.not_false, if_true, List.cons_append]
        exact (ih hnd2 hmem2).cons x

/-- C9 amended: for a duplicate-free sequence, toggling a coin twice restores
the original membership and multiset of elements (a permutation of the
original sequence; the exact sequence itself is restored whenever the coin
was absent, while removing and re-adding a held coin may reorder it to the
end); a single toggle appends the coin when absent and removes it when
present, and never introduces duplicates. toggleBookmarkCoin is the same
operation as toggleLikeCoin. -/
theorem C9_toggle_semantics (l : List String) (coin : String) (h : l.Nodup) :
    (List.Perm (toggleLikeCoin (toggleLikeCoin l coin) coin) l ∧
      (∀ c, c ∈ toggleLikeCoin (toggleLikeCoin l coin) coin ↔ c ∈ l) ∧
      (coin ∉ l → toggleLikeCoin (toggleLikeCoin l coin) coin = l) ∧
      (coin ∉ l → toggleLikeCoin l coin = l ++ [coin]) ∧
      (coin ∈ l → coin ∉ toggleLikeCoin l coin) ∧
      (coin ∉ l → coin ∈ toggleLikeCoin l coin) ∧
      (toggleLikeCoin l coin).Nodup) ∧
    (toggleBookmarkCoin (toggleBookmarkCoin l coin) coin
        = toggleLikeCoin (toggleLikeCoin l coin) coin ∧
      toggleBookmarkCoin l coin = toggleLikeCoin l coin) := by
  have htog : ∀ m : List String, toggleLikeCoin m coin
      = if coin ∈ m then m.filter (fun c => !decide (c = coin)) else m ++ [coin] := by
    intro m
    simp only [toggleLikeCoin, ne_eq, decide_not]
  refine ⟨?_, rfl, rfl⟩
  by_cases hmem : coin ∈ l
  · have ht1 : toggleLikeCoin l coin = l.filter (fun c => !decide (c = coin)) := by
      rw [htog, if_pos hmem]
    have hnotin : coin ∉ l.filter (fun c => !decide (c = coin)) := by
      intro hin
      have := (List.mem_filter.mp hin).2
      simp at this
    have ht2 : toggleLikeCoin (toggleLikeCoin l coin) coin
        = (l.filter (fun c => !decide (c = coin))) ++ [coin] := by
      rw [ht1, htog, if_neg hnotin]
    have hperm : List.Perm (toggleLikeCoin (toggleLikeCoin l coin) coin) l := by
      rw [ht2]
      exact filterNe_append_perm coin l h hmem
    refine ⟨hperm, fun c => hperm.mem_iff, fun hn => absurd hmem hn,
      fun hn => absurd hmem hn, fun _ => ?_, fun hn => absurd hmem hn, ?_⟩
    · rw [ht1]
      exact hnotin
    · rw [ht1]
      exact h.filter _
  · have ht1 : toggleLikeCoin l coin = l ++ [coin] := by
      rw [htog, if_neg hmem]
    have hin : coin ∈ l ++ [coin] := by simp
    have ht2 : toggleLikeCoin (toggleLikeCoin l coin) coin = l := by
      rw [ht1, htog, if_pos hin, List.filter_append, filterNe_of_not_mem coin l hmem]
      simp
    refine ⟨by rw [ht2], fun c => by rw [ht2], fun _ => ht2, fun _ => ht1,
      fun hc => absurd hc hmem, fun _ => by rw [ht1]; simp, ?_⟩
    rw [ht1]
    simp [List.nodup_append, h, hmem]

theorem C9_witness :
    (["BTC", "ETH"] : List String).Nodup ∧
    ((List.Perm (toggleLikeCoin (toggleLikeCoin ["BTC", "ETH"] "BTC") "BTC") ["BTC", "ETH"] ∧
      (∀ c, c ∈ toggleLikeCoin (toggleLikeCoin ["BTC", "ETH"] "BTC") "BTC"
          ↔ c ∈ (["BTC", "ETH"] : List String)) ∧
      ("BTC" ∉ (["BTC", "ETH"] : List String) →
        toggleLikeCoin (toggleLikeCoin ["BTC", "ETH"] "BTC") "BTC" = ["BTC", "ETH"]) ∧
      ("BTC" ∉ (["BTC", "ETH"] : List String) →
        toggleLikeCoin ["BTC", "ETH"] "BTC" = ["BTC", "ETH"] ++ ["BTC"]) ∧
      ("BTC" ∈ (["BTC", "ETH"] : List String) →
        "BTC" ∉ toggleLikeCoin ["BTC", "ETH"] "BTC") ∧
      ("BTC" ∉ (["BTC", "ETH"] : List String) →
        "BTC" ∈ toggleLikeCoin ["BTC", "ETH"] "BTC") ∧
      (toggleLikeCoin ["BTC", "ETH"] "BTC").Nodup) ∧
    (toggleBookmarkCoin (toggleBookmarkCoin ["BTC", "ETH"] "BTC") "BTC"
        = toggleLikeCoin (toggleLikeCoin ["BTC", "ETH"] "BTC") "BTC" ∧
      toggleBookmarkCoin ["BTC", "ETH"] "BTC" = toggleLikeCoin ["BTC", "ETH"] "BTC")) :=
  ⟨by decide, C9_toggle_semantics ["BTC", "ETH"] "BTC" (by decide)⟩
def c4_txs : List Transaction :=
  [ { coin := "BTC", amount := 1, price := 10, type := TxType.buy
      currency := Currency.TMN, date := 0 },
    { coin := "BTC", amount := 1, price := 20, type := TxType.sell
      currency := Currency.TMN, date := 1 } ]

theorem decide_buy_eq_sell : decide (TxType.buy = TxType.sell) = false := rfl

theorem decide_sell_eq_buy : decide (TxType.sell = TxType.buy) = false := rfl

theorem decide_sell_eq_sell : decide (TxType.sell = TxType.sell) = true := rfl

theorem decide_buy_eq_buy : decide (TxType.buy = TxType.buy) = true := rfl

/-- C4: the claim is false on the code: for a log holding one buy and one
profitable sell, calculateSuccessRate divides the one profitable sell by the
TOTAL transaction count (giving 50), not by the number of sell transactions
(which would give 100). -/
theorem C4_counterexample :
    calculateSuccessRate c4_txs = 50 ∧ claimSuccessRate c4_txs = 100 ∧
    calculateSuccessRate c4_txs ≠ claimSuccessRate c4_txs := by
  have h1 : calculateSuccessRate c4_txs = 50 := by
    norm_num [calculateSuccessRate, c4_txs, isProfitable, priorBuys, avgBuyPrice,
      List.filter, List.isEmpty, decide_buy_eq_sell, decide_sell_eq_buy,
      decide_sell_eq_sell, decide_buy_eq_buy]
  have h2 : claimSuccessRate c4_txs = 100 := by
    norm_num [claimSuccessRate, c4_txs, isProfitable, priorBuys, avgBuyPrice,
      List.filter, List.isEmpty, decide_buy_eq_sell, decide_sell_eq_buy,
      decide_sell_eq_sell, decide_buy_eq_buy]
  refine ⟨h1, h2, ?_⟩
  rw [h1, h2]
  norm_num

/-- Profitability as spec section 4.4 words it, with the existence of a prior
buy stated explicitly: a sell for whose coin at least one strictly earlier
buy exists, priced above the average price of those earlier buys. -/
def ProfitableSell (txs : List Transaction) (t : Transaction) : Prop :=
  t.type = TxType.sell ∧
  (∃ b ∈ txs, b.coin = t.coin ∧ b.type = TxType.buy ∧ b.date < t.date) ∧
  avgBuyPrice (priorBuys txs t) < t.price

instance instDecProfitableSell (txs : List Transaction) (t : Transaction) :
    Decidable (ProfitableSell txs t) := by
  unfold ProfitableSell
  infer_instance

theorem isProfitable_iff (txs : List Transaction) (t : Transaction) :
    isProfitable txs t = true ↔ ProfitableSell txs t := by
  unfold isProfitable ProfitableSell
  simp only [Bool.and_eq_true, decide_eq_true_eq, Bool.not_eq_true']
  constructor
  · rintro ⟨hsell, hne, hlt⟩
    refine ⟨hsell, ?_, hlt⟩
    cases hpb : priorBuys txs t with
    | nil => rw [hpb] at hne; cases hne
    | cons b bs =>
        have hbin : b ∈ priorBuys txs t := by rw [hpb]; exact List.mem_cons_self b bs
        have hb2 := List.mem_filter.mp hbin
        refine ⟨b, hb2.1, ?_⟩
        have hprops := hb2.2
        simp only [Bool.and_eq_true, decide_eq_true_eq] at hprops
        exact ⟨hprops.1.1, hprops.1.2, hprops.2⟩
  · rintro ⟨hsell, ⟨b, hbmem, hbcoin, hbty, hbdate⟩, hlt⟩
    refine ⟨hsell, ?_, hlt⟩
    have hbin : b ∈ priorBuys txs t := by
      refine List.mem_filter.mpr ⟨hbmem, ?_⟩
      simp only [Bool.and_eq_true, decide_eq_true_eq]
      exact ⟨⟨hbcoin, hbty⟩, hbdate⟩
    cases hpb : priorBuys txs t with
    | nil => rw [hpb] at hbin; cases hbin
    | cons x xs => rfl

/-- C4 amended: for a nonempty log the rate is the count of profitable sells
divided by the length of the WHOLE transaction list (buys included in the
denominator), times 100; the numerator only counts sell transactions with at
least one strictly earlier buy of the same coin, so it never exceeds the
number of sells. -/
theorem C4_success_rate (txs : List Transaction) (h : txs ≠ []) :
    calculateSuccessRate txs
        = ((txs.countP (fun t => decide (ProfitableSell txs t)) : ℚ)
            / (txs.length : ℚ)) * 100 ∧
    txs.countP (fun t => decide (ProfitableSell txs t))
        ≤ txs.countP (fun t => decide (t.type = TxType.sell)) := by
  have hfc : txs.filter (fun t => isProfitable txs t)
      = txs.filter (fun t => decide (ProfitableSell txs t)) := by
    apply List.filter_congr
    intro t _
    by_cases hp : ProfitableSell txs t
    · rw [(isProfitable_iff txs t).mpr hp, decide_eq_true hp]
    · have hnb : isProfitable txs t = false := by
        rw [← Bool.not_eq_true]
        exact fun hb => hp ((isProfitable_iff txs t).mp hb)
      rw [hnb, decide_eq_false hp]
  constructor
  · unfold calculateSuccessRate
    rw [if_neg (by simpa [List.isEmpty_iff] using h)]
    rw [List.countP_eq_length_filter, hfc]
  · apply List.countP_mono_left
    intro t ht hp
    have hps : ProfitableSell txs t := of_decide_eq_true hp
    exact decide_eq_true hps.1

theorem C4_witness :
    c4_txs ≠ [] ∧
    (calculateSuccessRate c4_txs
        = ((c4_txs.countP (fun t => decide (ProfitableSell c4_txs t)) : ℚ)
            / (c4_txs.length : ℚ)) * 100 ∧
      c4_txs.countP (fun t => decide (ProfitableSell c4_txs t))
          ≤ c4_txs.countP (fun t => decide (t.type = TxType.sell))) :=
  ⟨by simp [c4_txs], C4_success_rate c4_txs (by simp [c4_txs])⟩
theorem heldSum_nil (coin : String) : heldSum coin [] = 0 := rfl

theorem heldSum_cons (coin : String) (a : Asset) (rest : List Asset) :
    heldSum coin (a :: rest) = (if a.coin = coin then a.amount else 0) + heldSum coin rest := by
  by_cases hc : a.coin = coin
  · simp [heldSum, List.filter_cons, hc]
  · simp [heldSum, List.filter_cons, hc]

theorem heldSum_upsertAsset (q c : String) (amt : ℚ) :
    ∀ l : List Asset, heldSum q (upsertAsset l c amt)
      = heldSum q l + (if c = q then amt else 0) := by
  intro l
  induction l with
  | nil =>
      rw [show upsertAsset [] c amt = [⟨c, amt⟩] from rfl, heldSum_cons, heldSum_nil]
      simp
  | cons a rest ih =>
      by_cases hc : a.coin = c
      · rw [show upsertAsset (a :: rest) c amt
            = { a with amount := a.amount + amt } :: rest from by simp [upsertAsset, hc]]
        rw [heldSum_cons, heldSum_cons]
        by_cases hq : c = q
        · rw [if_pos (show ({ a with amount := a.amount + amt } : Asset).coin = q from hc ▸ hq),
            if_pos (hc ▸ hq : a.coin = q), if_pos hq]
          ring
        · have haq : ¬ a.coin = q := fun hh => hq (hc ▸ hh)
          rw [if_neg haq, if_neg haq, if_neg hq]
          ring
      · rw [show upsertAsset (a :: rest) c amt = a :: upsertAsset rest c amt from by
            simp [upsertAsset, hc]]
        rw [heldSum_cons, heldSum_cons, ih]
        ring

theorem heldSum_decrementAsset (q c : String) (amt : ℚ) :
    ∀ l : List Asset, (l.find? (fun a => decide (a.coin = c))).isSome = true →
      heldSum q (decrementAsset l c amt) = heldSum q l - (if c = q then amt else 0) := by
  intro l
  induction l with
  | nil => intro hf; simp at hf
  | cons a rest ih =>
      intro hf
      by_cases hc : a.coin = c
      · rw [show decrementAsset (a :: rest) c amt
            = { a with amount := a.amount - amt } :: rest from by simp [decrementAsset, hc]]
        rw [heldSum_cons, heldSum_cons]
        by_cases hq : c = q
        · rw [if_pos (show ({ a with amount := a.amount - amt } : Asset).coin = q from hc ▸ hq),
            if_pos (hc ▸ hq : a.coin = q), if_pos hq]
          ring
        · have haq : ¬ a.coin = q := fun hh => hq (hc ▸ hh)
          rw [if_neg haq, if_neg haq, if_neg hq]
          ring
      · have hf2 : (rest.find? (fun a => decide (a.coin = c))).isSome = true := by
          simp [List.find?_cons, hc] at hf
          simpa using hf
        rw [show decrementAsset (a :: rest) c amt = a :: decrementAsset rest c amt from by
            simp [decrementAsset, hc]]
        rw [heldSum_cons, heldSum_cons, ih hf2]
        ring

theorem buyCostSum_cons (c : Currency) (t : Transaction) (rest : List Transaction) :
    buyCostSum c (t :: rest)
      = (if t.type = TxType.buy ∧ t.currency = c then t.price * t.amount else 0)
        + buyCostSum c rest := rfl

theorem sellProceedsSum_cons (c : Currency) (t : Transaction) (rest : List Transaction) :
    sellProceedsSum c (t :: rest)
      = (if t.type = TxType.sell ∧ t.currency = c then t.price * t.amount else 0)
        + sellProceedsSum c rest := rfl

theorem buyAmountSum_cons (coin : String) (t : Transaction) (rest : List Transaction) :
    buyAmountSum coin (t :: rest)
      = (if t.type = TxType.buy ∧ t.coin = coin then t.amount else 0)
        + buyAmountSum coin rest := rfl

theorem sellAmountSum_cons (coin : String) (t : Transaction) (rest : List Transaction) :
    sellAmountSum coin (t :: rest)
      = (if t.type = TxType.sell ∧ t.coin = coin then t.amount else 0)
        + sellAmountSum coin rest := rfl

/-- C3 amended: over every validated transaction sequence the final balance of
each currency is the initial balance minus the buy costs plus the sell
proceeds of that currency (exact rational arithmetic), and the final held
amount of each coin is the INITIALLY held amount plus the buy amounts minus
the sell amounts of that coin - the pure fold claim holds only after adding
the initial holdings term, as forced by the counterexample. -/
theorem C3_ledger_fold (u : UserState) (txs : List Transaction)
    (h : validSeq u txs = true) :
    (∀ c, (applyAll u txs).wallet.balance.get c
        = u.wallet.balance.get c - buyCostSum c txs + sellProceedsSum c txs) ∧
    (∀ coin, heldSum coin (applyAll u txs).wallet.assets
        = heldSum coin u.wallet.assets + buyAmountSum coin txs - sellAmountSum coin txs) := by
  induction txs generalizing u with
  | nil =>
      refine ⟨fun c => ?_, fun coin => ?_⟩ <;>
        simp [applyAll, buyCostSum, sellProceedsSum, buyAmountSum, sellAmountSum]
  | cons tx rest ih =>
      rw [validSeq, Bool.and_eq_true] at h
      obtain ⟨hv, hrest⟩ := h
      obtain ⟨ihb, ihh⟩ := ih (addTransaction u tx) hrest
      have happ : applyAll u (tx :: rest) = applyAll (addTransaction u tx) rest := rfl
      cases hty : tx.type with
      | buy =>
          have hb : (addTransaction u tx).wallet.balance
              = u.wallet.balance.addTo tx.currency (-(tx.price * tx.amount)) := by
            simp [addTransaction, hty]
          have ha : (addTransaction u tx).wallet.assets
              = upsertAsset u.wallet.assets tx.coin tx.amount := by
            simp [addTransaction, hty]
          refine ⟨fun c => ?_, fun coin => ?_⟩
          · rw [happ, ihb c]
            by_cases hcur : tx.currency = c
            · simp [buyCostSum_cons, sellProceedsSum_cons, hb, Balance.get_addTo, hty, hcur]
                <;> ring
            · have hcur2 : ¬ c = tx.currency := fun hh => hcur hh.symm
              simp [buyCostSum_cons, sellProceedsSum_cons, hb, Balance.get_addTo, hty,
                hcur, hcur2] <;> ring
          · rw [happ, ihh coin]
            by_cases hcoin : tx.coin = coin
            · simp [buyAmountSum_cons, sellAmountSum_cons, ha,
                heldSum_upsertAsset coin coin tx.amount u.wallet.assets, hty, hcoin]
                <;> ring
            · simp [buyAmountSum_cons, sellAmountSum_cons, ha,
                heldSum_upsertAsset coin tx.coin tx.amount u.wallet.assets, hty, hcoin]
                <;> ring
      | sell =>
          have hb : (addTransaction u tx).wallet.balance
              = u.wallet.balance.addTo tx.currency (tx.price * tx.amount) := by
            simp [addTransaction, hty]
          have ha : (addTransaction u tx).wallet.assets
              = decrementAsset u.wallet.assets tx.coin tx.amount := by
            simp [addTransaction, hty]
          have hsome : (u.wallet.assets.find? (fun a => decide (a.coin = tx.coin))).isSome
              = true := by
            simp only [txValid, hty] at hv
            cases hfind : u.wallet.assets.find? (fun a => decide (a.coin = tx.coin)) with
            | none => rw [hfind] at hv; cases hv
            | some a => simp [hfind]
          have hdec := heldSum_decrementAsset
          refine ⟨fun c => ?_, fun coin => ?_⟩
          · rw [happ, ihb c]
            by_cases hcur : tx.currency = c
            · simp [buyCostSum_cons, sellProceedsSum_cons, hb, Balance.get_addTo, hty, hcur]
                <;> ring
            · have hcur2 : ¬ c = tx.currency := fun hh => hcur hh.symm
              simp [buyCostSum_cons, sellProceedsSum_cons, hb, Balance.get_addTo, hty,
                hcur, hcur2] <;> ring
          · rw [happ, ihh coin]
            by_cases hcoin : tx.coin = coin
            · simp [buyAmountSum_cons, sellAmountSum_cons, ha,
                heldSum_decrementAsset coin coin tx.amount u.wallet.assets (hcoin ▸ hsome),
                hty, hcoin] <;> ring
            · simp [buyAmountSum_cons, sellAmountSum_cons, ha,
                heldSum_decrementAsset coin tx.coin tx.amount u.wallet.assets hsome,
                hty, hcoin] <;> ring

def c3_user : UserState :=
  { wallet := { balance := { tmn := 10, usdt := 0 }, assets := [⟨"BTC", 1⟩] }
    transactions := []
    likedCoins := []
    bookmarkedCoins := [] }

def c3_tx : Transaction :=
  { coin := "BTC", amount := 1, price := 1, type := TxType.buy
    currency := Currency.TMN, date := 0 }

/-- C3: the holdings part of the claim is false as stated: it equates the
final held amount with buy amounts minus sell amounts, omitting the initial
holdings. Starting from a wallet already holding 1 BTC, one validated buy of
1 BTC yields a final held amount of 2 while the claimed fold value is 1. -/
theorem C3_counterexample :
    validSeq c3_user [c3_tx] = true ∧
    heldSum "BTC" (applyAll c3_user [c3_tx]).wallet.assets = 2 ∧
    buyAmountSum "BTC" [c3_tx] - sellAmountSum "BTC" [c3_tx] = 1 := by
  refine ⟨?_, ?_, ?_⟩
  · norm_num [validSeq, txValid, c3_user, c3_tx, Balance.get]
  · norm_num [applyAll, addTransaction, c3_user, c3_tx, upsertAsset, heldSum,
      List.filter_cons]
  · norm_num [buyAmountSum, sellAmountSum, c3_tx]
    decide

def c3w_user : UserState :=
  { wallet := { balance := { tmn := 100, usdt := 0 }, assets := [] }
    transactions := []
    likedCoins := []
    bookmarkedCoins := [] }

def c3w_txs : List Transaction :=
  [ { coin := "BTC", amount := 2, price := 10, type := TxType.buy
      currency := Currency.TMN, date := 0 },
    { coin := "BTC", amount := 1, price := 30, type := TxType.sell
      currency := Currency.TMN, date := 1 } ]

theorem C3_witness :
    validSeq c3w_user c3w_txs = true ∧
    ((∀ c, (applyAll c3w_user c3w_txs).wallet.balance.get c
        = c3w_user.wallet.balance.get c - buyCostSum c c3w_txs + sellProceedsSum c c3w_txs) ∧
      (∀ coin, heldSum coin (applyAll c3w_user c3w_txs).wallet.assets
        = heldSum coin c3w_user.wallet.assets + buyAmountSum coin c3w_txs
          - sellAmountSum coin c3w_txs)) := by
  have hvalid : validSeq c3w_user c3w_txs = true := by
    norm_num [validSeq, txValid, c3w_user, c3w_txs, Balance.get, addTransaction,
      upsertAsset, List.find?_cons]
  exact ⟨hvalid, C3_ledger_fold c3w_user c3w_txs hvalid⟩
def c6_txs : List Transaction :=
  [ { coin := "BTC", amount := 1, price := 10, type := TxType.buy
      currency := Currency.TMN, date := 0 },
    { coin := "ETH", amount := 2, price := 20, type := TxType.sell
      currency := Currency.TMN, date := 1 },
    { coin := "BTC", amount := 3, price := 30, type := TxType.sell
      currency := Currency.USDT, date := 2 } ]

/-- C6: the display-order claim is false on the code: getTransactions slices
the CHRONOLOGICAL list first and only reverses the slice, so with three
transactions and page size two, page 1 shows the two OLDEST transactions
(second-oldest first) instead of the two most recent ones. -/
theorem C6_counterexample :
    (getTransactions c6_txs 1 2 none none).transactions
        = [c6_txs.get ⟨1, by norm_num [c6_txs]⟩, c6_txs.get ⟨0, by norm_num [c6_txs]⟩] ∧
    revChronPage 1 2 c6_txs
        = [c6_txs.get ⟨2, by norm_num [c6_txs]⟩, c6_txs.get ⟨1, by norm_num [c6_txs]⟩] ∧
    (getTransactions c6_txs 1 2 none none).transactions ≠ revChronPage 1 2 c6_txs := by
  refine ⟨by decide, by decide, by decide⟩

theorem foldl_volume (l : List Transaction) :
    ∀ init : ℚ, l.foldl (fun total t => total + t.amount * t.price) init
      = init + volumeSum l := by
  induction l with
  | nil => intro init; simp [volumeSum]
  | cons t rest ih =>
      intro init
      rw [List.foldl_cons, ih, volumeSum]
      ring

/-- C6 amended: the page shown by getTransactions is the reverse of the slice
of the CHRONOLOGICALLY ordered filtered list starting at (page-1)*limit - so
within a page the newer of the sliced transactions comes first, but page 1
holds the oldest matching transactions and the most recent one sits on the
last page - while the total count, the buy and sell counts and the total
volume of the summary are computed over the whole filtered list in its
chronological order, independent of page and limit. -/
theorem C6_display_and_summary (txs : List Transaction) (page limit : ℕ)
    (ty? : Option TxType) (co? : Option String) (hp : 1 ≤ page) :
    (getTransactions txs page limit ty? co?).transactions
        = (((specFilter ty? co? txs).drop ((page - 1) * limit)).take limit).reverse ∧
    (getTransactions txs page limit ty? co?).totalTransactions
        = (specFilter ty? co? txs).length ∧
    (getTransactions txs page limit ty? co?).totalBuy
        = ((specFilter ty? co? txs).filter (fun t => decide (t.type = TxType.buy))).length ∧
    (getTransactions txs page limit ty? co?).totalSell
        = ((specFilter ty? co? txs).filter (fun t => decide (t.type = TxType.sell))).length ∧
    (getTransactions txs page limit ty? co?).totalVolume
        = volumeSum (specFilter ty? co? txs) := by
  have hfold := foldl_volume
  cases ty? with
  | none =>
      cases co? with
      | none =>
          refine ⟨?_, ?_, ?_, ?_, ?_⟩ <;>
            simp [getTransactions, specFilter, foldl_volume]
      | some c =>
          refine ⟨?_, ?_, ?_, ?_, ?_⟩ <;>
            simp [getTransactions, specFilter, foldl_volume]
  | some ty =>
      cases co? with
      | none =>
          refine ⟨?_, ?_, ?_, ?_, ?_⟩ <;>
            simp [getTransactions, specFilter, foldl_volume]
      | some c =>
          refine ⟨?_, ?_, ?_, ?_, ?_⟩ <;>
            simp [getTransactions, specFilter, foldl_volume, List.filter_filter,
              Bool.and_comm, Bool.and_left_comm, Bool.and_assoc]

theorem C6_witness :
    1 ≤ 1 ∧
    ((getTransactions c6_txs 1 2 none (some "btc")).transactions
        = (((specFilter none (some "btc") c6_txs).drop ((1 - 1) * 2)).take 2).reverse ∧
      (getTransactions c6_txs 1 2 none (some "btc")).totalTransactions
        = (specFilter none (some "btc") c6_txs).length ∧
      (getTransactions c6_txs 1 2 none (some "btc")).totalBuy
        = ((specFilter none (some "btc") c6_txs).filter
            (fun t => decide (t.type = TxType.buy))).length ∧
      (getTransactions c6_txs 1 2 none (some "btc")).totalSell
        = ((specFilter none (some "btc") c6_txs).filter
            (fun t => decide (t.type = TxType.sell))).length ∧
      (getTransactions c6_txs 1 2 none (some "btc")).totalVolume
        = volumeSum (specFilter none (some "btc") c6_txs)) :=
  ⟨le_refl 1, C6_display_and_summary c6_txs 1 2 none (some "btc") (le_refl 1)⟩
/-- C7: the claim is false at the boundary it names: a provider yielding a
positive non-finite value (JavaScript Infinity, which the isNaN guards of the
fetchers do not filter out) satisfies the guard rate && rate > 0, so
getUsdtRate returns and caches that infinity instead of the fallback even
though every provider returned a non-positive-or-non-finite value. -/
theorem C7_counterexample :
    (∀ r ∈ [some JsNum.posInf], r = none ∨
      ∃ v, r = some v ∧ (v.gtZero = false ∨ v.finite = false)) ∧
    getUsdtRate [some JsNum.posInf] = (JsNum.posInf, JsNum.posInf) ∧
    getUsdtRate [some JsNum.posInf] ≠ (FALLBACK_RATE, FALLBACK_RATE) := by
  refine ⟨?_, rfl, by decide⟩
  intro r hr
  simp only [List.mem_singleton] at hr
  subst hr
  exact Or.inr ⟨JsNum.posInf, rfl, Or.inr rfl⟩

/-- C7 amended: when every provider fails or returns a value that is not
strictly greater than zero (NaN never reaches the resolver because each
fetcher maps it to null through its isNaN guard), getUsdtRate returns the
hardcoded fallback 100000 and caches exactly that value, and being a total
function it raises no error; a positive infinite provider value, however,
passes the rate > 0 guard and is returned and cached as-is, which is why the
non-finite clause of the original claim had to be dropped. -/
theorem C7_fallback (providers : List (Option JsNum))
    (h : ∀ r ∈ providers, r = none ∨ ∃ v, r = some v ∧ v.gtZero = false) :
    getUsdtRate providers = (FALLBACK_RATE, FALLBACK_RATE) := by
  induction providers with
  | nil => rfl
  | cons r rest ih =>
      have hrest : ∀ x ∈ rest, x = none ∨ ∃ v, x = some v ∧ v.gtZero = false :=
        fun x hx => h x (List.mem_cons_of_mem r hx)
      cases h r (List.mem_cons_self r rest) with
      | inl hnone =>
          subst hnone
          simpa [getUsdtRate] using ih hrest
      | inr hex =>
          obtain ⟨v, hv, hgz⟩ := hex
          subst hv
          simpa [getUsdtRate, hgz] using ih hrest

def c7_providers : List (Option JsNum) :=
  [none, some (JsNum.fin 0), some (JsNum.fin (-5)), some JsNum.negInf]

theorem C7_witness :
    (∀ r ∈ c7_providers, r = none ∨ ∃ v, r = some v ∧ v.gtZero = false) ∧
    getUsdtRate c7_providers = (FALLBACK_RATE, FALLBACK_RATE) :=
  ⟨by decide, C7_fallback c7_providers (by decide)⟩
def c5_user : UserState :=
  { wallet := { balance := { tmn := 100, usdt := 2 }, assets := [⟨"BTC", 1⟩, ⟨"DOGE", 5⟩] }
    transactions := []
    likedCoins := []
    bookmarkedCoins := [] }

/-- C5: the never-an-error claim is false: for a user holding at least one
asset, a thrown Market Price Gateway failure - getMultiplePrices rethrows any
getAllMarkets error - escapes to the catch-all of getPortfolio, which answers
with the 500 error response instead of a success payload. -/
theorem C5_counterexample :
    getPortfolio c5_user 100000 (Except.error ()) = Except.error () ∧
    ¬ ∃ p, getPortfolio c5_user 100000 (Except.error ()) = Except.ok p := by
  refine ⟨rfl, ?_⟩
  rintro ⟨p, hp⟩
  rw [show getPortfolio c5_user 100000 (Except.error ()) = Except.error () from rfl] at hp
  exact Except.noConfusion hp

/-- C5 amended: when the wallet holds no assets the gateway is never consulted
and getPortfolio succeeds for every gateway outcome; when the batch price
lookup returns (rather than throws) getPortfolio also succeeds, and every
asset whose price is unavailable (null market info) contributes zero - its
valueInToman and valueInDollar are both zero - instead of failing the
computation. Only a THROWN gateway failure on a nonempty wallet produces an
error response, which is what the counterexample exhibits. -/
theorem C5_portfolio_ok (u : UserState) (rate : ℚ)
    (prices : String → Option MarketPriceInfo)
    (gw : Except Unit (String → Option MarketPriceInfo))
    (hgw : u.wallet.assets = [] ∨ gw = Except.ok prices) :
    ∃ p, getPortfolio u rate gw = Except.ok p ∧
      ∀ aw ∈ p.assets, aw.marketInfo = none →
        aw.valueInToman = 0 ∧ aw.valueInDollar = 0 := by
  rcases hgw with hempty | hok
  · have hemp : u.wallet.assets.isEmpty = true := by simp [hempty]
    cases hres : getPortfolio u rate gw with
    | error e =>
        exfalso
        simp only [getPortfolio] at hres
        rw [if_pos hemp] at hres
        exact Except.noConfusion hres
    | ok p =>
        refine ⟨p, rfl, ?_⟩
        simp only [getPortfolio] at hres
        rw [if_pos hemp] at hres
        have hp := Except.ok.inj hres
        rw [← hp]
        intro aw haw hmi
        simp at haw
  · subst hok
    by_cases hemp : u.wallet.assets.isEmpty = true
    · cases hres : getPortfolio u rate (Except.ok prices) with
      | error e =>
          exfalso
          simp only [getPortfolio] at hres
          rw [if_pos hemp] at hres
          exact Except.noConfusion hres
      | ok p =>
          refine ⟨p, rfl, ?_⟩
          simp only [getPortfolio] at hres
          rw [if_pos hemp] at hres
          have hp := Except.ok.inj hres
          rw [← hp]
          intro aw haw hmi
          simp at haw
    · cases hres : getPortfolio u rate (Except.ok prices) with
      | error e =>
          exfalso
          simp only [getPortfolio] at hres
          rw [if_neg hemp] at hres
          exact Except.noConfusion hres
      | ok p =>
          refine ⟨p, rfl, ?_⟩
          simp only [getPortfolio] at hres
          rw [if_neg hemp] at hres
          have hp := Except.ok.inj hres
          rw [← hp]
          intro aw haw hmi
          simp only at haw
          obtain ⟨asset, hmem, hfn⟩ := List.mem_map.mp haw
          rw [← hfn] at hmi ⊢
          simp only at hmi
          constructor
          · simp [hmi]
          · simp [hmi]

def c5_prices : String → Option MarketPriceInfo :=
  fun c => if c = "BTC" then some { lastPrice := 500, change24h := 3 } else none

theorem C5_witness :
    (c5_user.wallet.assets = [] ∨
      (Except.ok c5_prices : Except Unit (String → Option MarketPriceInfo))
        = Except.ok c5_prices) ∧
    (∃ p, getPortfolio c5_user 100000 (Except.ok c5_prices) = Except.ok p ∧
      ∀ aw ∈ p.assets, aw.marketInfo = none →
        aw.valueInToman = 0 ∧ aw.valueInDollar = 0) :=
  ⟨Or.inr rfl, C5_portfolio_ok c5_user 100000 c5_prices (Except.ok c5_prices) (Or.inr rfl)⟩
theorem jsToUpperCase_BTC : jsToUpperCase "BTC" = "BTC" := rfl

def c8_user : UserState :=
  { wallet := { balance := { tmn := 0, usdt := 0 }, assets := [⟨"BTC", 1⟩] }
    transactions := []
    likedCoins := []
    bookmarkedCoins := [] }

def c8_req : TradeReq := { coin := "BTC", amount := 1, price := 100, currency := Currency.TMN }

def c8_interleaved : RaceState :=
  runSchedule c8_req c8_req 7 [true, false, true, false]
    { shared := c8_user, p1 := SellPhase.start, p2 := SellPhase.start }

def c8_serialized : RaceState :=
  runSchedule c8_req c8_req 7 [true, true, false, false]
    { shared := c8_user, p1 := SellPhase.start, p2 := SellPhase.start }

/-- C8: the code carries the oversell race the spec mandates closing: with a
holding of exactly one sellable BTC and two sell requests of one BTC each,
the interleaving in which both holdings checks read the persisted document
before either addTransaction save commits makes BOTH requests report success
- and the second save overwrites the first, so the log records only one of
the two supposedly successful sells - while the serialized schedule produces
the intended one success and one InsufficientHoldings rejection. The check in
sellCrypto runs before executeWithTransaction and nothing inside the
transaction re-validates holdings, so no code path rules the interleaving
out. -/
theorem C8_oversell_race :
    c8_interleaved.p1 = SellPhase.done SellOutcome.ok ∧
    c8_interleaved.p2 = SellPhase.done SellOutcome.ok ∧
    heldSum "BTC" c8_interleaved.shared.wallet.assets = 0 ∧
    c8_interleaved.shared.transactions.length = 1 ∧
    c8_serialized.p1 = SellPhase.done SellOutcome.ok ∧
    c8_serialized.p2 = SellPhase.done SellOutcome.insufficientHoldings := by
  refine ⟨rfl, rfl, ?_, rfl, rfl, ?_⟩
  · norm_num [c8_interleaved, runSchedule, sellStep, c8_user, c8_req, jsToUpperCase_BTC,
      addTransaction, decrementAsset, heldSum, List.filter_cons, List.find?_cons]
  · norm_num [c8_serialized, runSchedule, sellStep, c8_user, c8_req, jsToUpperCase_BTC,
      addTransaction, decrementAsset, List.find?_cons]
